import Mathlib

/-!
Verification of the isometric-floor demo's core logic: isometric
projection, sprite-sheet slicing, grid enumeration, and the per-tile
animation-phase update.  Definitions are shallow embeddings of the
TypeScript source (`src/components/FloorLab.tsx`, `src/app/game/page.tsx`):
JavaScript numbers are modelled as rationals (reals where `cos` appears),
array indices as naturals, and the fallible slicer as `Except`.
-/

namespace PocPixi

/-- From `FloorLab.tsx` (`isoPosition`): direct tile-dimension isometric
projection, `[(col - row) * (tileWidth / 2), (col + row) * (tileHeight / 2)]`. -/
def isoPosition (col row : ℤ) (tileWidth tileHeight : ℚ) : ℚ × ℚ :=
  ((col - row) * (tileWidth / 2), (col + row) * (tileHeight / 2))

/-- From `page.tsx`: `TILE_PX = 18`. -/
def TILE_PX : ℚ := 18

/-- From `page.tsx`: `SCALE = 4` (pixel-art scale-up). -/
def SCALE : ℚ := 4

/-- From `page.tsx`: `TILE = TILE_PX * SCALE` (72px when scaled 4x). -/
def TILE : ℚ := TILE_PX * SCALE

/-- From `page.tsx` (`screenToIsometric`), generalized over the tile
constant `T` (the source fixes `T = TILE`):
`X = gridX * T; Y = gridY * T; [0.5*X - 0.5*Y, 0.25*X + 0.25*Y]`. -/
def screenToIsometricT (T : ℚ) (gridX gridY : ℤ) : ℚ × ℚ :=
  let X : ℚ := gridX * T
  let Y : ℚ := gridY * T
  (0.5 * X - 0.5 * Y, 0.25 * X + 0.25 * Y)

/-- From `page.tsx` (`screenToIsometric`): the source function, with its
fixed tile constant `TILE`. -/
def screenToIsometric (gridX gridY : ℤ) : ℚ × ℚ :=
  screenToIsometricT TILE gridX gridY

/-- A sprite frame: a sub-rectangle of the source sheet, from the
`new Rectangle(x * frameSize, y * frameSize, frameSize, frameSize)` calls
in `FloorLab.tsx`. -/
structure Frame where
  x : ℕ
  y : ℕ
  w : ℕ
  h : ℕ
deriving DecidableEq

/-- From `FloorLab.tsx` (sheet-load effect, lines 133-153): compute
`cols = floor(width / frameSize)`, `rows = floor(height / frameSize)`;
throw when `!cols || !rows`; otherwise push one frame per `(y, x)` with
`y` the outer loop, each at offset `(x*frameSize, y*frameSize)` and size
`(frameSize, frameSize)`. -/
def slice (width height frameSize : ℕ) : Except String (List Frame) :=
  let cols := width / frameSize
  let rows := height / frameSize
  if cols = 0 ∨ rows = 0 then
    Except.error "Frame size does not evenly divide sheet"
  else
    Except.ok ((List.range rows).flatMap fun y =>
      (List.range cols).map fun x =>
        { x := x * frameSize, y := y * frameSize, w := frameSize, h := frameSize })

/-- From `FloorLab.tsx` (`grid` memo, lines 179-185): nested loops pushing
`{row: r, col: c}` with `r` the outer loop. -/
def enumerate (rows cols : ℕ) : List (ℕ × ℕ) :=
  (List.range rows).flatMap fun r => (List.range cols).map fun c => (r, c)

/-- The three UI modes of `FloorLab.tsx`. -/
inductive Mode where
  | sheet
  | tile
  | cuboid
deriving DecidableEq

/-- From `FloorLab.tsx` (`activeTexture` memo, lines 187-194): return null
on an empty texture list; in sheet mode clamp the frame index with
`Math.max(0, Math.min(frameIndex, textures.length - 1))`; otherwise take
the first texture. -/
def activeTexture {α : Type} (mode : Mode) (textures : List α) (frameIndex : ℤ) : Option α :=
  if textures.length = 0 then none
  else
    match mode with
    | Mode.sheet =>
        let index : ℤ := max 0 (min frameIndex ((textures.length : ℤ) - 1))
        textures.get? index.toNat
    | _ => textures.get? 0

/-- Per-tile animation state of `GrassBlock` in `page.tsx`: `running`
models `animateRef.current`, `phase` models `timeRef.current` (exact
rationals in place of floats), `elevation` the `elevation` state. -/
structure AnimState where
  running : Bool
  phase : ℚ
  elevation : ℝ

/-- Initial `GrassBlock` state: animation off, `timeRef.current = 0`,
`elevation = 0`. -/
def initAnim : AnimState := ⟨false, 0, 0⟩

/-- The three external events acting on a `GrassBlock`'s animation state. -/
inductive AnimEvent where
  | enable
  | disable
  | tick

/-- From `page.tsx` (`GrassBlock`, lines 84-96), for the tile at column
`col` (the `x` prop): `enable` sets `animateRef.current = true`;
`disable` sets it false and runs `setElevation(0)`; `tick` returns
immediately unless running, else does `timeRef.current += 0.1` and
`setElevation(16 * Math.cos(timeRef.current - x))`. -/
noncomputable def animStep (col : ℤ) (s : AnimState) : AnimEvent → AnimState
  | AnimEvent.enable => { s with running := true }
  | AnimEvent.disable => { s with running := false, elevation := 0 }
  | AnimEvent.tick =>
      if s.running then
        let ph : ℚ := s.phase + 1/10
        { s with phase := ph, elevation := 16 * Real.cos ((ph : ℝ) - (col : ℝ)) }
      else s

/-- Run a sequence of events against a tile's animation state from the
initial state. -/
noncomputable def animRun (col : ℤ) (evs : List AnimEvent) : AnimState :=
  evs.foldl (animStep col) initAnim

/-! ### Shared helper lemmas -/

/-- The nested row-major loop over `rows × cols` equals a single map over
`range (rows * cols)`, splitting the flat index into quotient and
remainder. -/
theorem range_bind_map_eq {α : Type} (rows cols : ℕ) (f : ℕ → ℕ → α) :
    ((List.range rows).flatMap fun y => (List.range cols).map fun x => f y x) =
      (List.range (rows * cols)).map fun i => f (i / cols) (i % cols) := by
  induction rows with
  | zero => simp
  | succ n ih =>
      rw [List.range_succ, List.flatMap_append, ih, Nat.succ_mul, List.range_add,
        List.map_append]
      congr 1
      rw [List.map_map, List.flatMap_singleton]
      refine List.map_congr_left ?_
      intro i hi
      have hi' : i < cols := List.mem_range.mp hi
      have hcols : 0 < cols := by omega
      simp only [Function.comp_apply]
      congr 1
      · rw [Nat.add_comm (n * cols) i, Nat.add_mul_div_right _ _ hcols,
          Nat.div_eq_of_lt hi']
        omega
      · rw [Nat.add_comm (n * cols) i, Nat.add_mul_mod_self_right,
          Nat.mod_eq_of_lt hi']

/-- Length of the nested row-major loop. -/
theorem range_bind_map_length {α : Type} (rows cols : ℕ) (f : ℕ → ℕ → α) :
    ((List.range rows).flatMap fun y => (List.range cols).map fun x => f y x).length =
      rows * cols := by
  rw [range_bind_map_eq]
  simp

/-- Element `r * cols + c` of the nested row-major loop is `f r c`. -/
theorem range_bind_map_get (rows cols : ℕ) {α : Type} (f : ℕ → ℕ → α)
    (r c : ℕ) (hr : r < rows) (hc : c < cols) :
    ((List.range rows).flatMap fun y => (List.range cols).map fun x => f y x)[r * cols + c]? =
      some (f r c) := by
  have hlt : r * cols + c < rows * cols := by
    calc r * cols + c < r * cols + cols := by omega
    _ = (r + 1) * cols := by ring
    _ ≤ rows * cols := Nat.mul_le_mul_right cols hr
  have hcols : 0 < cols := by omega
  rw [range_bind_map_eq, List.getElem?_map, List.getElem?_range hlt]
  simp only [Option.map_some']
  congr 2
  · rw [Nat.add_comm (r * cols) c, Nat.add_mul_div_right _ _ hcols, Nat.div_eq_of_lt hc]
    omega
  · rw [Nat.add_comm (r * cols) c, Nat.add_mul_mod_self_right, Nat.mod_eq_of_lt hc]

/-! ### Claim theorems -/

/-- C3: for every non-negative integer `col` and `row` and every positive
`tileWidth` and `tileHeight`, the direct tile-dimension projection returns
exactly `x = (col - row) * tileWidth / 2` and
`y = (col + row) * tileHeight / 2`. -/
theorem isoPosition_direct_form (col row : ℕ) (tileWidth tileHeight : ℚ)
    (hw : 0 < tileWidth) (hh : 0 < tileHeight) :
    isoPosition col row tileWidth tileHeight =
      (((col : ℚ) - (row : ℚ)) * tileWidth / 2,
       ((col : ℚ) + (row : ℚ)) * tileHeight / 2) := by
  simp only [isoPosition, Prod.mk.injEq]
  constructor <;> push_cast <;> ring

/-- Witness for C3 at `col = 3, row = 1, tileWidth = 10, tileHeight = 5`. -/
theorem isoPosition_direct_form_witness :
    isoPosition (3 : ℕ) (1 : ℕ) 10 5 =
      ((((3 : ℕ) : ℚ) - ((1 : ℕ) : ℚ)) * 10 / 2,
       (((3 : ℕ) : ℚ) + ((1 : ℕ) : ℚ)) * 5 / 2) :=
  isoPosition_direct_form 3 1 10 5 (by norm_num) (by norm_num)

/-- C4: for every pair of integers `(col, row)` and every positive tile
constant `T`, the scaled-axis projection
`(0.5*(col*T) - 0.5*(row*T), 0.25*(col*T) + 0.25*(row*T))` produces the
same point as the direct projection with `tileWidth = T` and
`tileHeight = T/2`. -/
theorem screenToIsometric_eq_isoPosition (col row : ℤ) (T : ℚ) (hT : 0 < T) :
    screenToIsometricT T col row = isoPosition col row T (T / 2) := by
  simp only [screenToIsometricT, isoPosition, Prod.mk.injEq]
  norm_num
  constructor <;> ring

/-- Witness for C4 at `col = 2, row = 1, T = 72` (the source's `TILE`). -/
theorem screenToIsometric_eq_isoPosition_witness :
    screenToIsometricT 72 2 1 = isoPosition 2 1 72 (72 / 2) :=
  screenToIsometric_eq_isoPosition 2 1 72 (by norm_num)

/-- C7: for every positive `tileWidth` and `tileHeight`, the direct
projection is injective on integer grid coordinates: distinct
`(col, row)` pairs map to distinct screen points. -/
theorem isoPosition_injective (c₁ r₁ c₂ r₂ : ℤ) (tileWidth tileHeight : ℚ)
    (hw : 0 < tileWidth) (hh : 0 < tileHeight)
    (h : isoPosition c₁ r₁ tileWidth tileHeight =
      isoPosition c₂ r₂ tileWidth tileHeight) :
    c₁ = c₂ ∧ r₁ = r₂ := by
  simp only [isoPosition, Prod.mk.injEq] at h
  obtain ⟨hx, hy⟩ := h
  have hw2 : tileWidth / 2 ≠ 0 := by positivity
  have hh2 : tileHeight / 2 ≠ 0 := by positivity
  have hx' : (c₁ : ℚ) - r₁ = (c₂ : ℚ) - r₂ := mul_right_cancel₀ hw2 hx
  have hy' : (c₁ : ℚ) + r₁ = (c₂ : ℚ) + r₂ := mul_right_cancel₀ hh2 hy
  have hc : (c₁ : ℚ) = c₂ := by linarith
  have hr : (r₁ : ℚ) = r₂ := by linarith
  exact ⟨by exact_mod_cast hc, by exact_mod_cast hr⟩

/-- Witness for C7 at `(1, 2)`, `(1, 2)`, `tileWidth = 8`,
`tileHeight = 4`. -/
theorem isoPosition_injective_witness : (1 : ℤ) = 1 ∧ (2 : ℤ) = 2 :=
  isoPosition_injective 1 2 1 2 8 4 (by norm_num) (by norm_num) rfl

/-- C6: `enumerate rows cols` yields exactly `rows * cols` pairs
`(row, col)` in row-major order (`col` varying fastest); zero for either
argument yields the empty sequence. -/
theorem enumerate_spec : ∀ rows cols : ℕ,
    (enumerate rows cols).length = rows * cols ∧
    (∀ r c : ℕ, r < rows → c < cols →
      (enumerate rows cols)[r * cols + c]? = some (r, c)) ∧
    enumerate 0 cols = [] ∧ enumerate rows 0 = [] := by
  intro rows cols
  refine ⟨range_bind_map_length rows cols _,
    fun r c hr hc => range_bind_map_get rows cols _ r c hr hc, ?_, ?_⟩
  · simp [enumerate]
  · simp [enumerate]

/-- Witness for C6: `enumerate 16 16` has 256 pairs, first `(0, 0)` and
last `(15, 15)`. -/
theorem enumerate_spec_witness :
    (enumerate 16 16).length = 256 ∧
    (enumerate 16 16)[0]? = some (0, 0) ∧
    (enumerate 16 16)[255]? = some (15, 15) := by
  obtain ⟨hlen, hget, -, -⟩ := enumerate_spec 16 16
  refine ⟨by simpa using hlen, ?_, ?_⟩
  · have h := hget 0 0 (by norm_num) (by norm_num)
    simpa using h
  · have h := hget 15 15 (by norm_num) (by norm_num)
    norm_num at h
    exact h

/-- C1 (amended): the slicer fails with its non-divisibility error exactly
when `floor(width / frameSize) = 0` or `floor(height / frameSize) = 0`;
otherwise it succeeds even when `frameSize` does not evenly divide the
image dimensions. -/
theorem slice_error_iff : ∀ width height frameSize : ℕ,
    (slice width height frameSize).isOk = false ↔
      width / frameSize = 0 ∨ height / frameSize = 0 := by
  intro width height frameSize
  by_cases hcond : width / frameSize = 0 ∨ height / frameSize = 0
  · simp [slice, hcond, Except.isOk, Except.toBool]
  · simp [slice, hcond, Except.isOk, Except.toBool]

/-- Counterexample to C1 as stated: `slice 180 100 18` succeeds (the code
floors `100 / 18` to 5 rows and returns 50 frames) instead of failing on
the non-divisible height. -/
theorem slice_180_100_18_succeeds : (slice 180 100 18).isOk = true := by decide

/-- C5: when both dimensions are positive and evenly divisible by
`frameSize`, slicing succeeds and returns exactly
`(width / frameSize) * (height / frameSize)` frames in row-major order,
with frame `r * cols + c` at offset `(c * frameSize, r * frameSize)` and
size `(frameSize, frameSize)`. -/
theorem slice_divisible_spec :
    ∀ width height frameSize : ℕ, 0 < width → 0 < height → 0 < frameSize →
    frameSize ∣ width → frameSize ∣ height →
    (slice width height frameSize).isOk = true ∧
    ∀ L : List Frame, slice width height frameSize = Except.ok L →
      L.length = (width / frameSize) * (height / frameSize) ∧
      ∀ r c : ℕ, r < height / frameSize → c < width / frameSize →
        L[r * (width / frameSize) + c]? =
          some ⟨c * frameSize, r * frameSize, frameSize, frameSize⟩ := by
  intro width height frameSize hw hh hf hdw hdh
  have hcols : 0 < width / frameSize := Nat.div_pos (Nat.le_of_dvd hw hdw) hf
  have hrows : 0 < height / frameSize := Nat.div_pos (Nat.le_of_dvd hh hdh) hf
  have hcond : ¬(width / frameSize = 0 ∨ height / frameSize = 0) := by omega
  have hslice : slice width height frameSize =
      Except.ok ((List.range (height / frameSize)).flatMap fun y =>
        (List.range (width / frameSize)).map fun x =>
          ⟨x * frameSize, y * frameSize, frameSize, frameSize⟩) := by
    simp only [slice]
    rw [if_neg hcond]
  refine ⟨by rw [hslice]; rfl, ?_⟩
  intro L hL
  rw [hslice] at hL
  injection hL with hL
  subst hL
  constructor
  · rw [range_bind_map_length]
    exact Nat.mul_comm _ _
  · intro r c hr hc
    exact range_bind_map_get _ _ _ r c hr hc

/-- Witness for C5: a 180×180 sheet with frame size 18 slices
successfully into 100 frames, frame 0 at offset `(0, 0)` and frame 99 at
offset `(162, 162)`. -/
theorem slice_divisible_spec_witness :
    (slice 180 180 18).isOk = true ∧
    ((slice 180 180 18).toOption.getD []).length = 100 ∧
    ((slice 180 180 18).toOption.getD [])[0]? = some ⟨0, 0, 18, 18⟩ ∧
    ((slice 180 180 18).toOption.getD [])[99]? = some ⟨162, 162, 18, 18⟩ :=
  ⟨(slice_divisible_spec 180 180 18 (by norm_num) (by norm_num) (by norm_num)
      (by norm_num) (by norm_num)).1,
   by decide, by decide, by decide⟩

/-- C9: every frame the slicer returns lies entirely within the source
image bounds, even when `frameSize` does not evenly divide the
dimensions, because the row and column counts are floored. -/
theorem slice_frames_in_bounds :
    ∀ (width height frameSize : ℕ) (L : List Frame) (fr : Frame),
      slice width height frameSize = Except.ok L → fr ∈ L →
      fr.x + fr.w ≤ width ∧ fr.y + fr.h ≤ height := by
  intro width height frameSize L fr hok hmem
  by_cases hcond : width / frameSize = 0 ∨ height / frameSize = 0
  · simp [slice, hcond] at hok
  · have hslice : slice width height frameSize =
        Except.ok ((List.range (height / frameSize)).flatMap fun y =>
          (List.range (width / frameSize)).map fun x =>
            ⟨x * frameSize, y * frameSize, frameSize, frameSize⟩) := by
      simp only [slice]
      rw [if_neg hcond]
    rw [hslice] at hok
    injection hok with hok
    subst hok
    simp only [List.mem_flatMap, List.mem_map, List.mem_range] at hmem
    obtain ⟨y, hy, x, hx, rfl⟩ := hmem
    constructor
    · calc x * frameSize + frameSize = (x + 1) * frameSize := by ring
      _ ≤ (width / frameSize) * frameSize := Nat.mul_le_mul_right frameSize hx
      _ ≤ width := Nat.div_mul_le_self width frameSize
    · calc y * frameSize + frameSize = (y + 1) * frameSize := by ring
      _ ≤ (height / frameSize) * frameSize := Nat.mul_le_mul_right frameSize hy
      _ ≤ height := Nat.div_mul_le_self height frameSize

/-- Witness for C9 on the truncating case: the first frame of
`slice 180 100 18` stays within the 180×100 image. -/
theorem slice_frames_in_bounds_witness :
    (Frame.mk 0 0 18 18).x + (Frame.mk 0 0 18 18).w ≤ 180 ∧
    (Frame.mk 0 0 18 18).y + (Frame.mk 0 0 18 18).h ≤ 100 :=
  slice_frames_in_bounds 180 100 18 ((slice 180 100 18).toOption.getD [])
    ⟨0, 0, 18, 18⟩ rfl (by decide)

/-- Step preservation: if an animation state satisfies "Idle implies zero
elevation", so does its successor under any event. -/
theorem animStep_preserves_idle_elev (col : ℤ) (s : AnimState) (e : AnimEvent)
    (hs : s.running = false → s.elevation = 0) :
    (animStep col s e).running = false → (animStep col s e).elevation = 0 := by
  cases e with
  | enable => intro h; simp [animStep] at h
  | disable => intro _; simp [animStep]
  | tick =>
      by_cases hr : s.running = true
      · intro h
        simp [animStep, hr] at h
      · intro h
        have hr' : s.running = false := by
          cases hnow : s.running
          · rfl
          · exact absurd hnow hr
        simp [animStep, hr'] at h ⊢
        exact hs hr'

/-- Folding any event sequence from a state with the "Idle implies zero
elevation" property ends in a state with that property. -/
theorem animFoldl_idle_elev (col : ℤ) :
    ∀ (evs : List AnimEvent) (s : AnimState),
      (s.running = false → s.elevation = 0) →
      (evs.foldl (animStep col) s).running = false →
      (evs.foldl (animStep col) s).elevation = 0 := by
  intro evs
  induction evs with
  | nil => intro s hs; simpa using hs
  | cons e rest ih =>
      intro s hs
      simp only [List.foldl_cons]
      exact ih (animStep col s e) (animStep_preserves_idle_elev col s e hs)

/-- C2 (amended): in every state reachable from the initial state, the
displayed elevation is 0 whenever the machine is Idle; but `disable` does
not reset the phase accumulator — both `disable` and `enable` preserve
it, so re-enabling continues from the pre-disable phase. -/
theorem anim_idle_elevation_zero :
    ∀ (col : ℤ) (evs : List AnimEvent) (s : AnimState),
      ((animRun col evs).running = false → (animRun col evs).elevation = 0) ∧
      (animStep col s AnimEvent.disable).phase = s.phase ∧
      (animStep col s AnimEvent.enable).phase = s.phase := by
  intro col evs s
  refine ⟨fun h => ?_, by simp [animStep], by simp [animStep]⟩
  have h0 : initAnim.running = false → initAnim.elevation = 0 := fun _ => rfl
  exact animFoldl_idle_elev col evs initAnim h0 h

/-- Witness for C2 (amended) on the run `enable; tick; disable` at column
0 and on the concrete state after that run. -/
theorem anim_idle_elevation_zero_witness :
    (animRun 0 [AnimEvent.enable, AnimEvent.tick, AnimEvent.disable]).elevation = 0 ∧
    (animStep 0 initAnim AnimEvent.disable).phase = initAnim.phase ∧
    (animStep 0 initAnim AnimEvent.enable).phase = initAnim.phase := by
  obtain ⟨h1, h2, h3⟩ := anim_idle_elevation_zero 0
    [AnimEvent.enable, AnimEvent.tick, AnimEvent.disable] initAnim
  exact ⟨h1 (by simp [animRun, animStep, initAnim]), h2, h3⟩

/-- Counterexample to C2 as stated: after `enable; tick; disable` the
machine is Idle yet the phase accumulator holds `1/10`, not 0 — the code
resets the elevation on disable but never resets `timeRef`. -/
theorem anim_idle_phase_counterexample :
    (animRun 0 [AnimEvent.enable, AnimEvent.tick, AnimEvent.disable]).running = false ∧
    (animRun 0 [AnimEvent.enable, AnimEvent.tick, AnimEvent.disable]).phase ≠ 0 := by
  have h : animRun 0 [AnimEvent.enable, AnimEvent.tick, AnimEvent.disable] =
      { running := false, phase := 1 / 10,
        elevation := 0 } := by
    simp [animRun, animStep, initAnim]
  rw [h]
  norm_num

/-- C8: while Running, each tick advances the phase by exactly `1/10` and
sets the displayed elevation of the tile at column `col` to
`16 * cos(phase - col)` with the advanced phase; from Idle, `enable`
followed by five ticks yields phase `1/2` (exact rational arithmetic). -/
theorem anim_tick_spec :
    ∀ (col : ℤ) (s : AnimState), s.running = true →
      ((animStep col s AnimEvent.tick).phase = s.phase + 1 / 10 ∧
       (animStep col s AnimEvent.tick).elevation =
         16 * Real.cos (((animStep col s AnimEvent.tick).phase : ℝ) - (col : ℝ))) ∧
      (animRun col [AnimEvent.enable, AnimEvent.tick, AnimEvent.tick,
        AnimEvent.tick, AnimEvent.tick, AnimEvent.tick]).phase = 1 / 2 := by
  intro col s hs
  refine ⟨⟨by simp [animStep, hs], by simp [animStep, hs]⟩, ?_⟩
  simp [animRun, animStep, initAnim]
  norm_num

/-- Witness for C8 at column 0 from the state `Running, phase 0`. -/
theorem anim_tick_spec_witness :
    ((animStep 0 ⟨true, 0, 0⟩ AnimEvent.tick).phase =
        (AnimState.mk true 0 0).phase + 1 / 10 ∧
     (animStep 0 ⟨true, 0, 0⟩ AnimEvent.tick).elevation =
       16 * Real.cos (((animStep 0 ⟨true, 0, 0⟩ AnimEvent.tick).phase : ℝ) -
         ((0 : ℤ) : ℝ))) ∧
    (animRun 0 [AnimEvent.enable, AnimEvent.tick, AnimEvent.tick,
      AnimEvent.tick, AnimEvent.tick, AnimEvent.tick]).phase = 1 / 2 :=
  anim_tick_spec 0 ⟨true, 0, 0⟩ rfl

/-- C10: selecting the active frame never indexes out of bounds — in
sheet mode the index is clamped to `max 0 (min frameIndex (n - 1))` and a
frame is always returned for a non-empty list; the empty list yields
`none` in every mode. -/
theorem activeTexture_spec {α : Type} :
    ∀ (textures : List α) (frameIndex : ℤ) (mode : Mode),
      (textures.length ≠ 0 →
        activeTexture Mode.sheet textures frameIndex =
          textures.get?
            (max 0 (min frameIndex ((textures.length : ℤ) - 1))).toNat ∧
        (activeTexture Mode.sheet textures frameIndex).isSome = true) ∧
      activeTexture mode ([] : List α) frameIndex = none := by
  intro textures frameIndex mode
  constructor
  · intro hn
    have heq : activeTexture Mode.sheet textures frameIndex =
        textures.get?
          (max 0 (min frameIndex ((textures.length : ℤ) - 1))).toNat := by
      simp [activeTexture, hn]
    refine ⟨heq, ?_⟩
    have hle : max 0 (min frameIndex ((textures.length : ℤ) - 1)) ≤
        (textures.length : ℤ) - 1 := by
      apply max_le
      · omega
      · exact min_le_right _ _
    have hlt : (max 0 (min frameIndex ((textures.length : ℤ) - 1))).toNat <
        textures.length := by omega
    rw [heq, List.get?_eq_get hlt]
    rfl
  · cases mode <;> simp [activeTexture]

/-- Witness for C10 on `[10, 20]` with out-of-range index 5, and the
empty list in tile mode. -/
theorem activeTexture_spec_witness :
    (activeTexture Mode.sheet [10, 20] (5 : ℤ)).isSome = true ∧
    activeTexture Mode.tile ([] : List ℕ) (5 : ℤ) = none := by
  obtain ⟨h1, h2⟩ := activeTexture_spec [10, 20] (5 : ℤ) Mode.tile
  exact ⟨(h1 (by simp)).2, h2⟩

end PocPixi
